import Mathlib

/-!
Shallow embedding of the redis cache adapter of `duolacloud/crud-cache-redis`
(file `cache/redis.cache.go`, redigo variant, with the `go-redis` variant's
`wrapRedisError` noted where relevant), together with theorems about its
Get/Set/Delete contract.

The remote store (a Redis server) is external to the repository; it is
modelled as the abstract key-value-with-TTL store the adapter drives through
the commands GET / SET / SETEX / DEL: a partial map from effective keys to a
byte payload plus an optional absolute expiry instant, and a current time.
Time and durations are in nanoseconds (Go `time.Duration` is an `int64`
nanosecond count); `options.Exipration.Seconds() > 0` holds exactly when the
nanosecond count is positive, and the abstract store honours the requested
time-to-live exactly.
-/

set_option linter.unusedVariables false

namespace CrudCacheRedis

/-- Byte sequences (`[]byte` in Go). -/
abbrev Bytes := List Nat

/-- Go `error` values as the adapter distinguishes them:
`errNotExist` is the package-level sentinel `ErrNotExist = errors.New("key does not exist")`
(`types.ErrNotFound` in the go-redis variant), `errNil` is the client library's
nil-reply error (`redis.ErrNil` / `redis.Nil`), and `custom` stands for any
other error value (codec or transport failures), identified by its message. -/
inductive GoError where
  | errNotExist
  | errNil
  | custom (msg : String)
deriving DecidableEq, Repr

/-- A stored entry of the remote store: payload bytes plus an optional
absolute expiry instant in nanoseconds. -/
structure Entry where
  val : Bytes
  expireAt : Option Int
deriving DecidableEq, Repr

/-- The remote store: current time (ns) and the keyed entries. -/
structure Store where
  now : Int
  data : String → Option Entry

/-- Redis GET: the payload under a key, `none` when the key is absent or its
expiry instant has been reached (Redis removes a key once its deadline
passes; a key with no expiry always answers). -/
def Store.liveGet (st : Store) (k : String) : Option Bytes :=
  match st.data k with
  | none => none
  | some e =>
    match e.expireAt with
    | none => some e.val
    | some ex => if st.now < ex then some e.val else none

/-- Redis SET (no options): store the payload with no expiry. -/
def Store.setKey (st : Store) (k : String) (v : Bytes) : Store :=
  { st with data := fun k' => if k' = k then some ⟨v, none⟩ else st.data k' }

/-- Redis SETEX: store the payload with a time-to-live of `d` nanoseconds
from now (the adapter passes `Exipration.Seconds()` on the wire; the
abstract store honours the duration exactly). -/
def Store.setexKey (st : Store) (k : String) (d : Int) (v : Bytes) : Store :=
  { st with data := fun k' => if k' = k then some ⟨v, some (st.now + d)⟩ else st.data k' }

/-- Redis DEL: remove the key; absence is not an error (DEL just reports a
removal count). -/
def Store.delKey (st : Store) (k : String) : Store :=
  { st with data := fun k' => if k' = k then none else st.data k' }

/-- The commands the adapter issues against the remote store, recorded so
that theorems can speak about which effective keys an operation touches. -/
inductive Cmd where
  | get (key : String)
  | set (key : String) (val : Bytes)
  | setex (key : String) (d : Int) (val : Bytes)
  | del (key : String)
deriving DecidableEq, Repr

/-- The key argument of a command. -/
def Cmd.key : Cmd → String
  | .get k => k
  | .set k _ => k
  | .setex k _ _ => k
  | .del k => k

/-- Go `MarshalFunc func(any) ([]byte, error)`, for values of type `α`. -/
abbrev MarshalFunc (α : Type) := α → Except GoError Bytes

/-- Go `UnmarshalFunc func([]byte, any) error`: takes the bytes and the
current pointed-to value, returns the decoded value (or an error). -/
abbrev UnmarshalFunc (α : Type) := Bytes → α → Except GoError α

/-- Configuration of the redigo pool built by `connect`: sizing fields plus
the dial parameters the `Dial` closure captures. Building this record
performs no network activity (the closure runs only when the pool hands out
a connection). -/
structure PoolConfig where
  maxIdle : Int
  maxActive : Int
  idleTimeout : Int
  wait : Bool
  dialHost : String
  dialDb : Int
  dialPassword : String
deriving DecidableEq, Repr

/-- The `redisCache` struct. The Go field `prefix` is called `keyPrefix`
here; all other field names follow the source. `redisPool` is `none` until
`connect` has run (the Go zero value is a nil pointer). -/
structure RedisCache (α : Type) where
  host : String
  keyPrefix : String
  marshal : MarshalFunc α
  unmarshal : UnmarshalFunc α
  password : String
  maxIdle : Int
  maxActive : Int
  idleTimeout : Int
  db : Int
  redisPool : Option PoolConfig

/-- The functional-options type (Go `type Option func(*redisCache)`). -/
abbrev Opt (α : Type) := RedisCache α → RedisCache α

/-- Go `WithHost`. -/
def WithHost (host : String) : Opt α := fun rc => { rc with host := host }

/-- Go `WithPrefix`. -/
def WithPrefix (p : String) : Opt α := fun rc => { rc with keyPrefix := p }

/-- Go `WithMarshal`. -/
def WithMarshal (m : MarshalFunc α) : Opt α := fun rc => { rc with marshal := m }

/-- Go `WithUnmarshal`. -/
def WithUnmarshal (u : UnmarshalFunc α) : Opt α := fun rc => { rc with unmarshal := u }

/-- Go `WithPassword`. -/
def WithPassword (pw : String) : Opt α := fun rc => { rc with password := pw }

/-- Go `WithPool(maxIdle, maxActive, idleTimeout)`. -/
def WithPool (maxIdle maxActive idleTimeout : Int) : Opt α :=
  fun rc => { rc with maxIdle := maxIdle, maxActive := maxActive, idleTimeout := idleTimeout }

/-- Go `WithDB`. -/
def WithDB (db : Int) : Opt α := fun rc => { rc with db := db }

/-- Go `(rc *redisCache) connect()`: records the pool configuration (sizing,
`Wait: true`, and the parameters the `Dial` closure captures). No network
I/O happens here: redigo dials lazily, on first `pool.Get()`. -/
def RedisCache.connect (rc : RedisCache α) : RedisCache α :=
  { rc with
    redisPool := some
      { maxIdle := rc.maxIdle
        maxActive := rc.maxActive
        idleTimeout := rc.idleTimeout
        wait := true
        dialHost := rc.host
        dialDb := rc.db
        dialPassword := rc.password } }

/-- Go `NewRedisCache(opts ...Option)`: defaults (host `localhost:6379`,
`json.Marshal` / `json.Unmarshal` — passed in as `jsonMarshal` /
`jsonUnmarshal` since the embedding is typed — pool 5/20/10min), then the
options in order, then `connect`; always returns `(c, nil)`. -/
def NewRedisCache (jsonMarshal : MarshalFunc α) (jsonUnmarshal : UnmarshalFunc α)
    (opts : List (Opt α)) : RedisCache α × Option GoError :=
  let c : RedisCache α :=
    { host := "localhost:6379"
      keyPrefix := ""
      marshal := jsonMarshal
      unmarshal := jsonUnmarshal
      password := ""
      maxIdle := 5
      maxActive := 20
      idleTimeout := 10 * 60 * 1000000000
      db := 0
      redisPool := none }
  let c := opts.foldl (fun c opt => opt c) c
  (c.connect, none)

/-- Go `cache.GetOptions` (crud-core): no field the adapter reads. -/
structure GetOptions where
deriving DecidableEq, Repr

abbrev GetOption := GetOptions → GetOptions

/-- Go `cache.SetOptions` (crud-core): the expiration duration, a
`time.Duration` nanosecond count (zero value 0 = no expiration). The field
name `Exipration` is the source's spelling. -/
structure SetOptions where
  Exipration : Int := 0
deriving DecidableEq, Repr

abbrev SetOption := SetOptions → SetOptions

/-- crud-core `cache.WithExpiration`. -/
def WithExpiration (d : Int) : SetOption := fun o => { o with Exipration := d }

/-- Go `cache.DeleteOptions` (crud-core): no field the adapter reads. -/
structure DeleteOptions where
deriving DecidableEq, Repr

abbrev DeleteOption := DeleteOptions → DeleteOptions

/-- Go `(rc *redisCache) Get(c, key, value, opts...)`: folds the options
(unused), computes `cacheKey := rc.prefix + key`, runs GET; a nil reply
makes `redis.Bytes` return `redis.ErrNil`, which the adapter maps to the
`ErrNotExist` sentinel; any other bytes are fed to `rc.unmarshal` with the
caller's value. (The source's `if bytes == nil { return nil }` line is
unreachable: `redis.Bytes` never pairs nil bytes with a nil error.) GET does
not modify the store, so the store comes back unchanged. Returns the Go
`error` (with the decoded value on success), the commands issued, and the
store after the call. -/
def RedisCache.Get (rc : RedisCache α) (st : Store) (key : String) (value : α)
    (opts : List GetOption) : Except GoError α × List Cmd × Store :=
  let options := opts.foldl (fun acc opt => opt acc) {}
  let cacheKey := rc.keyPrefix ++ key
  match st.liveGet cacheKey with
  | none => (.error .errNotExist, [.get cacheKey], st)
  | some bytes =>
    match rc.unmarshal bytes value with
    | .error e => (.error e, [.get cacheKey], st)
    | .ok v => (.ok v, [.get cacheKey], st)

/-- Go `(rc *redisCache) Set(c, key, value, opts...)`: folds the options,
serializes via `rc.marshal` — a marshal error is returned as-is, before any
command is issued — then computes `cacheKey := rc.prefix + key` and runs
SETEX when `options.Exipration.Seconds() > 0` (equivalently, when the
nanosecond count is positive) and plain SET otherwise. -/
def RedisCache.Set (rc : RedisCache α) (st : Store) (key : String) (value : α)
    (opts : List SetOption) : Except GoError Unit × List Cmd × Store :=
  let options := opts.foldl (fun acc opt => opt acc) {}
  match rc.marshal value with
  | .error e => (.error e, [], st)
  | .ok bytes =>
    let cacheKey := rc.keyPrefix ++ key
    let expiresIn := options.Exipration
    if 0 < expiresIn then
      (.ok (), [.setex cacheKey expiresIn bytes], st.setexKey cacheKey expiresIn bytes)
    else
      (.ok (), [.set cacheKey bytes], st.setKey cacheKey bytes)

/-- Go `(rc *redisCache) Delete(c, key, opts...)`: folds the options
(unused), computes `cacheKey := rc.prefix + key`, runs DEL and returns its
error (none: DEL cannot fail on an absent key, it reports a count). -/
def RedisCache.Delete (rc : RedisCache α) (st : Store) (key : String)
    (opts : List DeleteOption) : Except GoError Unit × List Cmd × Store :=
  let options := opts.foldl (fun acc opt => opt acc) {}
  let cacheKey := rc.keyPrefix ++ key
  (.ok (), [.del cacheKey], st.delKey cacheKey)

/-- The visible steps of the pool's `Dial` closure: the TCP dial, the
SELECT and AUTH commands, and closing the connection. -/
inductive DialStep where
  | dialTcp (host : String)
  | doSelect (db : Int)
  | doAuth (password : String)
  | close
deriving DecidableEq, Repr

/-- Outcomes the environment (network and server) can give the dial steps:
whether the TCP dial fails, and the errors (if any) SELECT and AUTH would
return. -/
structure DialEnv where
  dialErr : Option GoError
  selectErr : Option GoError
  authErr : Option GoError
deriving DecidableEq, Repr

/-- The `Dial` closure of `connect`, as a function of the captured fields
and the environment: dial TCP; if `rc.db > 0`, SELECT (closing the
connection and returning the error on failure); then, if `rc.password` is
non-empty, AUTH (closing and returning the error on failure). Returns the
Go result (`nil` error on success) and the list of steps performed, in
order. -/
def poolDial (host : String) (db : Int) (password : String) (env : DialEnv) :
    Except GoError Unit × List DialStep :=
  match env.dialErr with
  | some e => (.error e, [.dialTcp host])
  | none =>
    if 0 < db then
      match env.selectErr with
      | some e => (.error e, [.dialTcp host, .doSelect db, .close])
      | none =>
        if password ≠ "" then
          match env.authErr with
          | some e => (.error e, [.dialTcp host, .doSelect db, .doAuth password, .close])
          | none => (.ok (), [.dialTcp host, .doSelect db, .doAuth password])
        else
          (.ok (), [.dialTcp host, .doSelect db])
    else
      if password ≠ "" then
        match env.authErr with
        | some e => (.error e, [.dialTcp host, .doAuth password, .close])
        | none => (.ok (), [.dialTcp host, .doAuth password])
      else
        (.ok (), [.dialTcp host])

/-- Is a step a SELECT? -/
def DialStep.isSelect : DialStep → Bool
  | .doSelect _ => true
  | _ => false

/-- Is a step an AUTH? -/
def DialStep.isAuth : DialStep → Bool
  | .doAuth _ => true
  | _ => false

/-- Every step satisfying `p` occurs strictly before every step satisfying
`q` in the trace. -/
def stepsPrecede (p q : DialStep → Bool) (tr : List DialStep) : Prop :=
  ∀ i : Fin tr.length, ∀ j : Fin tr.length,
    p (tr.get i) = true → q (tr.get j) = true → i.val < j.val

instance (p q : DialStep → Bool) (tr : List DialStep) : Decidable (stepsPrecede p q tr) := by
  unfold stepsPrecede
  infer_instance

/-! ### Concrete fixtures used by witnesses -/

/-- A concrete codec for `Nat`: unary encoding. It round-trips every value. -/
def natMarshal : MarshalFunc Nat := fun n => .ok (List.replicate n 1)

/-- Decoder matching `natMarshal` (ignores the current pointed-to value, as
a decoder that fully overwrites its target does). -/
def natUnmarshal : UnmarshalFunc Nat := fun b _ => .ok b.length

/-- A marshal function that always fails, to exercise the codec-error path. -/
def badMarshal : MarshalFunc Nat := fun _ => .error (.custom "boom")

/-- A cache constructed the way the repository's own test does, with key
prefix `app:` and the unary codec. -/
def rcApp : RedisCache Nat :=
  (NewRedisCache natMarshal natUnmarshal [WithPrefix "app:"]).1

/-- A second cache over the same store with a different prefix. -/
def rcB0 : RedisCache Nat :=
  (NewRedisCache natMarshal natUnmarshal [WithPrefix "b:"]).1

/-- A cache whose marshal function always fails. -/
def rcBad : RedisCache Nat :=
  (NewRedisCache natMarshal natUnmarshal [WithMarshal badMarshal]).1

/-- The empty remote store at time 0. -/
def st0 : Store := ⟨0, fun _ => none⟩

/-! ### Helper lemmas -/

/-- Two stores with the same clock and the same entries are equal. -/
theorem Store.ext_points {a b : Store} (h1 : a.now = b.now)
    (h2 : ∀ k, a.data k = b.data k) : a = b := by
  cases a with
  | mk n d =>
    cases b with
    | mk n' d' =>
      have hn : n = n' := h1
      have hd : d = d' := funext h2
      subst hn
      subst hd
      rfl

/-- Appending the same suffix to two strings is injective in the left part. -/
theorem string_append_right_cancel {p q s : String} (h : p ++ s = q ++ s) : p = q := by
  have hd : p.data ++ s.data = q.data ++ s.data := by
    have := congrArg String.data h
    simpa using this
  have h2 : p.data = q.data := List.append_cancel_right hd
  exact String.ext h2

/-- `Set` leaves every key other than the effective key untouched. -/
theorem set_data_other (rc : RedisCache α) (st : Store) (k : String) (v : α)
    (opts : List SetOption) (k' : String) (h : k' ≠ rc.keyPrefix ++ k) :
    ((rc.Set st k v opts).2.2).data k' = st.data k' := by
  simp only [RedisCache.Set]
  cases hm : rc.marshal v with
  | error e => rfl
  | ok b =>
    simp only []
    split <;> simp [Store.setexKey, Store.setKey, h]

/-- `Set` does not touch the store's clock. -/
theorem set_now_eq (rc : RedisCache α) (st : Store) (k : String) (v : α)
    (opts : List SetOption) : ((rc.Set st k v opts).2.2).now = st.now := by
  simp only [RedisCache.Set]
  cases hm : rc.marshal v with
  | error e => rfl
  | ok b =>
    simp only []
    split <;> rfl

/-- `liveGet` at a key depends only on the clock and the entry at that key. -/
theorem liveGet_congr {st st' : Store} (k : String) (h1 : st.now = st'.now)
    (h2 : st.data k = st'.data k) : st.liveGet k = st'.liveGet k := by
  unfold Store.liveGet
  rw [h1, h2]

/-- `Get` hands the store back unchanged (GET is a pure read). -/
theorem get_store_eq (rc : RedisCache α) (st : Store) (key : String) (v0 : α)
    (opts : List GetOption) : (rc.Get st key v0 opts).2.2 = st := by
  simp only [RedisCache.Get]
  cases hg : st.liveGet (rc.keyPrefix ++ key) with
  | none => rfl
  | some b =>
    simp only []
    cases rc.unmarshal b v0 <;> rfl

/-- The error component of `Get` is determined by `liveGet` at the
effective key and the unmarshal function. -/
theorem get_result_congr (rc : RedisCache α) (st st' : Store) (key : String) (v0 : α)
    (h : st.liveGet (rc.keyPrefix ++ key) = st'.liveGet (rc.keyPrefix ++ key)) :
    (rc.Get st key v0 []).1 = (rc.Get st' key v0 []).1 := by
  simp only [RedisCache.Get, h]
  cases hg : st'.liveGet (rc.keyPrefix ++ key) with
  | none => rfl
  | some b =>
    simp only []
    cases rc.unmarshal b v0 <;> rfl

/-! ### Claim theorems -/

/-- C1: for every key and every value the codec round-trips faithfully
(marshalling succeeds and unmarshalling those bytes recovers the value),
`Set` followed immediately by `Get` on the same instance succeeds and yields
the original value, for any expiration option. -/
theorem set_get_roundtrip (rc : RedisCache α) (st : Store) (k : String) (v v0 : α)
    (opts : List SetOption) (b : Bytes)
    (hm : rc.marshal v = .ok b) (hu : rc.unmarshal b v0 = .ok v) :
    (rc.Set st k v opts).1 = .ok () ∧
      (rc.Get (rc.Set st k v opts).2.2 k v0 []).1 = .ok v := by
  simp only [RedisCache.Set, hm]
  constructor
  · split <;> rfl
  · split
    case isTrue hpos =>
      have hlt := lt_add_of_pos_right st.now hpos
      simp [RedisCache.Get, Store.liveGet, Store.setexKey, hu, hlt]
    case isFalse hpos =>
      simp [RedisCache.Get, Store.liveGet, Store.setKey, hu]

/-- C1 witness: with a concrete unary codec, `Set` then `Get` of the value
3 under key `user:1` with a 5-second TTL yields 3. -/
theorem set_get_roundtrip_witness :
    (rcApp.Set st0 "user:1" 3 [WithExpiration 5000000000]).1 = .ok () ∧
      (rcApp.Get (rcApp.Set st0 "user:1" 3 [WithExpiration 5000000000]).2.2
        "user:1" 0 []).1 = .ok 3 :=
  set_get_roundtrip rcApp st0 "user:1" 3 0 [WithExpiration 5000000000]
    (List.replicate 3 1) rfl rfl

/-- C2: when the effective key is absent (never set, expired or deleted),
`Get` returns exactly the `ErrNotExist` sentinel; when it is present and
the bytes deserialize, `Get` returns no error; and the sentinel is a
distinguished value, distinct from every other error. -/
theorem get_notfound_sentinel (rc : RedisCache α) (st : Store) (k : String) (v0 : α) :
    (st.liveGet (rc.keyPrefix ++ k) = none →
      (rc.Get st k v0 []).1 = .error .errNotExist) ∧
    (∀ b w, st.liveGet (rc.keyPrefix ++ k) = some b → rc.unmarshal b v0 = .ok w →
      (rc.Get st k v0 []).1 = .ok w) ∧
    (∀ msg, GoError.errNotExist ≠ .custom msg) ∧
    GoError.errNotExist ≠ .errNil := by
  refine ⟨?_, ?_, ?_, ?_⟩
  · intro h
    simp [RedisCache.Get, h]
  · intro b w hb hu
    simp [RedisCache.Get, hb, hu]
  · intro msg hc
    cases hc
  · intro hc
    cases hc

/-- C2 witness: on the empty store, `Get` of a never-set key returns the
sentinel, and after setting-then-expiring a key it does too. -/
theorem get_notfound_sentinel_witness :
    (rcApp.Get st0 "missing" 0 []).1 = .error .errNotExist :=
  (get_notfound_sentinel rcApp st0 "missing" 0).1 rfl

/-- C3: every command any of the three operations issues against the remote
store carries exactly the effective key `keyPrefix ++ k`, for all three
operations alike (the operations are pure functions of the cache record, so
none mutates the prefix). -/
theorem ops_use_prefixed_key (rc : RedisCache α) (st : Store) (k : String) (v v0 : α)
    (sopts : List SetOption) :
    ((rc.Get st k v0 []).2.1.all fun c => c.key == rc.keyPrefix ++ k) = true ∧
    ((rc.Set st k v sopts).2.1.all fun c => c.key == rc.keyPrefix ++ k) = true ∧
    ((rc.Delete st k []).2.1.all fun c => c.key == rc.keyPrefix ++ k) = true := by
  refine ⟨?_, ?_, ?_⟩
  · simp only [RedisCache.Get]
    cases hg : st.liveGet (rc.keyPrefix ++ k) with
    | none => simp [Cmd.key]
    | some b =>
      simp only []
      cases rc.unmarshal b v0 <;> simp [Cmd.key]
  · simp only [RedisCache.Set]
    cases hm : rc.marshal v with
    | error e => simp
    | ok b =>
      simp only []
      split <;> simp [Cmd.key]
  · simp [RedisCache.Delete, Cmd.key]

/-- C7: `Delete` returns no error on any store (in particular on one where
the key is absent), and it is idempotent: a second `Delete` of the same key
also succeeds and leaves the store exactly as after the first. -/
theorem delete_idempotent (rc : RedisCache α) (st : Store) (k : String) :
    (rc.Delete st k []).1 = .ok () ∧
    (rc.Delete (rc.Delete st k []).2.2 k []).1 = .ok () ∧
    (rc.Delete (rc.Delete st k []).2.2 k []).2.2 = (rc.Delete st k []).2.2 := by
  refine ⟨rfl, rfl, ?_⟩
  apply Store.ext_points
  · rfl
  · intro k'
    by_cases h : k' = rc.keyPrefix ++ k <;>
      simp [RedisCache.Delete, Store.delKey, h]

/-- C8: when the marshal function fails, `Set` returns that error verbatim,
issues no command against the remote store, and leaves the store unchanged. -/
theorem set_marshal_error_no_command (rc : RedisCache α) (st : Store) (k : String)
    (v : α) (e : GoError) (opts : List SetOption) (hm : rc.marshal v = .error e) :
    rc.Set st k v opts = (.error e, [], st) := by
  simp [RedisCache.Set, hm]

/-- C8 witness: a cache whose marshal always fails returns the codec error
from `Set` with no command issued and the store untouched. -/
theorem set_marshal_error_witness :
    rcBad.Set st0 "k" 7 [] = (.error (.custom "boom"), [], st0) :=
  set_marshal_error_no_command rcBad st0 "k" 7 (.custom "boom") [] rfl

/-- C4: a positive expiration stores the entry with exactly that duration as
its time-to-live (expiry instant `now + d`); expiration 0, absent, or
negative stores the entry with no expiry, and such an entry answers `GET`
at every instant until deleted. -/
theorem set_ttl_semantics (rc : RedisCache α) (st : Store) (k : String) (v : α)
    (b : Bytes) (d : Int) (hm : rc.marshal v = .ok b) :
    (0 < d → ((rc.Set st k v [WithExpiration d]).2.2).data (rc.keyPrefix ++ k)
      = some ⟨b, some (st.now + d)⟩) ∧
    (d ≤ 0 → ((rc.Set st k v [WithExpiration d]).2.2).data (rc.keyPrefix ++ k)
      = some ⟨b, none⟩) ∧
    ((rc.Set st k v []).2.2).data (rc.keyPrefix ++ k) = some ⟨b, none⟩ ∧
    (∀ t : Int, (Store.mk t ((rc.Set st k v []).2.2).data).liveGet (rc.keyPrefix ++ k)
      = some b) := by
  refine ⟨?_, ?_, ?_, ?_⟩
  · intro hd
    simp [RedisCache.Set, hm, WithExpiration, hd, Store.setexKey]
  · intro hd
    have hnd : ¬ (0 < d) := not_lt.mpr hd
    simp [RedisCache.Set, hm, WithExpiration, hnd, Store.setKey]
  · simp [RedisCache.Set, hm, Store.setKey]
  · intro t
    simp [RedisCache.Set, hm, Store.setKey, Store.liveGet]

/-- C4 witness: value 2 under key `k` with TTL 5 is stored expiring at
`now + 5`; without an expiration option it is stored with no expiry. -/
theorem set_ttl_semantics_witness :
    ((rcApp.Set st0 "k" 2 [WithExpiration 5]).2.2).data (rcApp.keyPrefix ++ "k")
      = some ⟨List.replicate 2 1, some (st0.now + 5)⟩ ∧
    ((rcApp.Set st0 "k" 2 []).2.2).data (rcApp.keyPrefix ++ "k")
      = some ⟨List.replicate 2 1, none⟩ :=
  ⟨(set_ttl_semantics rcApp st0 "k" 2 (List.replicate 2 1) 5 rfl).1 (by decide),
   (set_ttl_semantics rcApp st0 "k" 2 (List.replicate 2 1) 5 rfl).2.2.1⟩

/-- C5 counterexample: with db 1 and a password, the dial performs SELECT
before AUTH — authentication does not precede namespace selection — and
with the nonzero db index -1 no SELECT is performed at all. -/
theorem dial_order_counterexample :
    ¬ stepsPrecede DialStep.isAuth DialStep.isSelect
      (poolDial "localhost:6379" 1 "secret" ⟨none, none, none⟩).2 ∧
    (poolDial "localhost:6379" (-1) "" ⟨none, none, none⟩).2
      = [.dialTcp "localhost:6379"] := by
  constructor
  · decide
  · rfl

/-- C5 (amended): the dial connects first; a TCP failure surfaces with
nothing else attempted. Once connected, SELECT is issued iff db > 0, and
then AUTH iff the password is non-empty — selection precedes
authentication — and a failing SELECT or AUTH closes the connection and
surfaces its error. -/
theorem dial_step_order (host : String) (db : Int) (pw : String) (env : DialEnv) :
    (∀ e, env.dialErr = some e →
      poolDial host db pw env = (.error e, [.dialTcp host])) ∧
    (env.dialErr = none → env.selectErr = none → env.authErr = none →
      (poolDial host db pw env).1 = .ok () ∧
      (poolDial host db pw env).2 =
        [DialStep.dialTcp host] ++ (if 0 < db then [DialStep.doSelect db] else [])
          ++ (if pw ≠ "" then [DialStep.doAuth pw] else [])) ∧
    (∀ e, env.dialErr = none → env.selectErr = some e → 0 < db →
      poolDial host db pw env = (.error e, [.dialTcp host, .doSelect db, .close])) ∧
    (∀ e, env.dialErr = none → env.selectErr = none → env.authErr = some e → pw ≠ "" →
      (poolDial host db pw env).1 = .error e ∧
      DialStep.close ∈ (poolDial host db pw env).2) := by
  refine ⟨?_, ?_, ?_, ?_⟩
  · intro e he
    simp [poolDial, he]
  · intro h1 h2 h3
    by_cases hdb : 0 < db <;> by_cases hpw : pw = "" <;>
      simp [poolDial, h1, h2, h3, hdb, hpw]
  · intro e h1 h2 hdb
    simp [poolDial, h1, h2, hdb]
  · intro e h1 h2 h3 hpw
    by_cases hdb : 0 < db <;> simp [poolDial, h1, h2, h3, hdb, hpw]

/-- C5 witness: a successful dial with db 1 and a password performs
connect, then SELECT, then AUTH. -/
theorem dial_step_order_witness :
    (poolDial "localhost:6379" 1 "secret" ⟨none, none, none⟩).1 = .ok () ∧
    (poolDial "localhost:6379" 1 "secret" ⟨none, none, none⟩).2 =
      [DialStep.dialTcp "localhost:6379"]
        ++ (if (0 : Int) < 1 then [DialStep.doSelect 1] else [])
        ++ (if "secret" ≠ "" then [DialStep.doAuth "secret"] else []) :=
  (dial_step_order "localhost:6379" 1 "secret" ⟨none, none, none⟩).2.1 rfl rfl rfl

/-- C6: for every option list, construction returns a nil error together
with a cache whose pool object has been built — and, the construction
being a pure record computation, it contacts no remote store. -/
theorem new_cache_never_fails (jm : MarshalFunc α) (ju : UnmarshalFunc α)
    (opts : List (Opt α)) :
    (NewRedisCache jm ju opts).2 = none ∧
    ((NewRedisCache jm ju opts).1).redisPool.isSome = true := by
  constructor
  · rfl
  · simp [NewRedisCache, RedisCache.connect]

/-- C9: two caches with distinct prefixes over the same backing store are
isolated: a `Set` of logical key `k` through one does not change what a
`Get` of `k` through the other returns. -/
theorem prefix_isolation (rcA rcB : RedisCache α) (st : Store) (k : String)
    (v v0 : α) (opts : List SetOption) (hpre : rcA.keyPrefix ≠ rcB.keyPrefix) :
    (rcB.Get (rcA.Set st k v opts).2.2 k v0 []).1 = (rcB.Get st k v0 []).1 := by
  have hkey : rcB.keyPrefix ++ k ≠ rcA.keyPrefix ++ k := by
    intro hc
    exact hpre (string_append_right_cancel hc).symm
  have hl : ((rcA.Set st k v opts).2.2).liveGet (rcB.keyPrefix ++ k)
      = st.liveGet (rcB.keyPrefix ++ k) :=
    liveGet_congr _ (set_now_eq rcA st k v opts) (set_data_other rcA st k v opts _ hkey)
  exact get_result_congr rcB _ st k v0 hl

/-- C9 witness: with prefixes `app:` and `b:`, a `Set` through the first
cache leaves a `Get` through the second unchanged. -/
theorem prefix_isolation_witness :
    (rcB0.Get (rcApp.Set st0 "k" 3 []).2.2 "k" 0 []).1 = (rcB0.Get st0 "k" 0 []).1 :=
  prefix_isolation rcApp rcB0 st0 "k" 3 0 [] (by decide)

/-- C10: `Set` and `Delete` leave every key other than the effective key
untouched, and `Get` hands the store back exactly as it was. -/
theorem ops_frame (rc : RedisCache α) (st : Store) (k k' : String) (v v0 : α)
    (opts : List SetOption) (h : k' ≠ rc.keyPrefix ++ k) :
    ((rc.Set st k v opts).2.2).data k' = st.data k' ∧
    ((rc.Delete st k []).2.2).data k' = st.data k' ∧
    (rc.Get st k v0 []).2.2 = st := by
  refine ⟨set_data_other rc st k v opts k' h, ?_, get_store_eq rc st k v0 []⟩
  simp [RedisCache.Delete, Store.delKey, h]

/-- C10 witness: setting or deleting `k` through the `app:`-prefixed cache
does not change the entry under `other`, and `Get` returns the store as-is. -/
theorem ops_frame_witness :
    ((rcApp.Set st0 "k" 1 []).2.2).data "other" = st0.data "other" ∧
    ((rcApp.Delete st0 "k" []).2.2).data "other" = st0.data "other" ∧
    (rcApp.Get st0 "k" 0 []).2.2 = st0 :=
  ops_frame rcApp st0 "k" "other" 1 0 [] (by decide)

end CrudCacheRedis
